import Mathlib

/-!
# A verification model of the PersistentBuffer pool

Shallow embedding of `PersistentBuffer.cpp` / `PersistentBuffer.h`
(repository b0bh00d/PersistentBuffer).  The repository carries two
revisions of `PersistentBuffer.cpp`: a plain one and one augmented with
optional tracking instrumentation (compiled out by default, and purely
diagnostic).  The two revisions have identical pool logic except for
`release_buffer`, where the tracking revision guards the body with
`if (buffer.get() && buffer->m_in_use)`; both variants are modelled
below (`release_buffer` for the plain revision, `release_buffer_guarded`
for the guarded one).

Modelling conventions:
* A `BufferPtr` (a `std::shared_ptr<Buffer>`) is an index into `heap`,
  the list of every `Buffer` object ever created; `Option Nat` is used
  where a pointer may be null.  Sharing of one record between
  `m_buffers`, `m_size_list` and caller handles is sharing of the index.
* `time_t` values are `Int` (signed arithmetic `now - last_used` is used
  by the source); each operation that calls `time(nullptr)` takes the
  current time `now` as an argument.
* The `m_buffer` data block is modelled as a `Bool` that records whether
  the record currently owns storage (`shared_ptr` non-null); byte
  contents are outside every claim.
* `std::map<BufferPtr, bool> m_buffers` always maps to `true`, so it is
  modelled as its key list (insertion appends a fresh key).
* `std::sort` with comparator `a->m_allocated < b->m_allocated` leaves
  the order of equal keys unspecified; the model uses `insertionSort`,
  which produces one of the admissible sorted permutations.
* `assert` is a debug-build check that compiles to nothing under NDEBUG;
  asserted facts are proved as theorems instead of being modelled as
  control flow.
-/

/-- One `PersistentBuffer::Buffer` record (PersistentBuffer.h, lines 80-116).
Field defaults are the in-class member initializers. -/
structure Buffer where
  m_in_use : Bool := false
  m_data_size : Nat := 0
  m_allocated : Nat := 0
  m_usage_count : Nat := 0
  m_last_used : Int := 0
  m_buffer : Bool := false
deriving DecidableEq, Repr

/-- Model of `Buffer::reset` (PersistentBuffer.h, lines 92-99): clears every
field except `m_usage_count`, and drops the storage block. -/
def Buffer.resetRecord (b : Buffer) : Buffer :=
  { b with m_in_use := false, m_data_size := 0, m_allocated := 0,
           m_buffer := false, m_last_used := 0 }

/-- The `PersistentBuffer::Policy` enumeration (`TotalPolicies` is only a
count, not a policy). -/
inductive Policy where
  | ZeroBuffer
  | DropOld
deriving DecidableEq, Repr

/-- The `std::bitset<TotalPolicies> m_policies` state: one independent flag
per policy. -/
structure Policies where
  zeroBuffer : Bool := false
  dropOld : Bool := false
deriving DecidableEq, Repr

/-- Model of `m_policies.set(policy)`. -/
def Policies.set : Policies → Policy → Policies
  | ps, .ZeroBuffer => { ps with zeroBuffer := true }
  | ps, .DropOld => { ps with dropOld := true }

/-- Model of `m_policies.reset(policy)`. -/
def Policies.clear : Policies → Policy → Policies
  | ps, .ZeroBuffer => { ps with zeroBuffer := false }
  | ps, .DropOld => { ps with dropOld := false }

/-- Model of `m_policies[policy]`. -/
def Policies.get : Policies → Policy → Bool
  | ps, .ZeroBuffer => ps.zeroBuffer
  | ps, .DropOld => ps.dropOld

/-- Model of `m_policies.reset()`: all flags cleared. -/
def Policies.clearAll : Policies := {}

/-- The static data members of `PersistentBuffer` (plus the file-static
`m_initialized` flag and the `heap` of Buffer objects the ids refer to).
Defaults are the static initializers. -/
structure PoolState where
  heap : List Buffer := []
  m_cleanup_timeout : Int := 0
  m_last_cleanup_check : Int := 0
  m_policies : Policies := {}
  m_buffers : List Nat := []
  m_buffers_in_use : Int := 0
  m_size_list : List Nat := []
  m_initialized : Bool := false
deriving DecidableEq, Repr

/-- Dereference a `BufferPtr`: the Buffer object the id points to. -/
def getBuf (st : PoolState) (id : Nat) : Buffer :=
  st.heap.getD id {}

/-- Write through a `BufferPtr`: mutate the pointed-to Buffer object
(visible through every alias of the id). -/
def setBuf (st : PoolState) (id : Nat) (b : Buffer) : PoolState :=
  { st with heap := st.heap.set id b }

namespace PersistentBuffer

/-- Model of `PersistentBuffer::initialize` (cpp lines 388-393): sets the
`ZeroBuffer` policy and marks the pool initialized. -/
def initializePool (st : PoolState) : PoolState :=
  { st with m_policies := st.m_policies.set .ZeroBuffer, m_initialized := true }

/-- The state of the static initializers before `initialize()` runs. -/
def staticState : PoolState := {}

/-- The pool right after `initialize()`. -/
def initialState : PoolState := initializePool staticState

/-- Model of `PersistentBuffer::set_cleanup_timeout` (cpp lines 395-400):
stores the timeout, stamps `m_last_cleanup_check = time(nullptr)`, and
unconditionally sets the `DropOld` policy. -/
def set_cleanup_timeout (st : PoolState) (seconds : Int) (now : Int) : PoolState :=
  { st with m_cleanup_timeout := seconds,
            m_last_cleanup_check := now,
            m_policies := st.m_policies.set .DropOld }

/-- Model of `PersistentBuffer::set_policy` (cpp lines 402-405). -/
def set_policy (st : PoolState) (p : Policy) : PoolState :=
  { st with m_policies := st.m_policies.set p }

/-- Model of `PersistentBuffer::clear_policy` (cpp lines 413-416). -/
def clear_policy (st : PoolState) (p : Policy) : PoolState :=
  { st with m_policies := st.m_policies.clear p }

/-- Model of `PersistentBuffer::policy_is_active` (PersistentBuffer.h,
line 147). -/
def policy_is_active (st : PoolState) (p : Policy) : Bool :=
  st.m_policies.get p

/-- Model of `PersistentBuffer::buffers_in_use` (PersistentBuffer.h,
line 173). -/
def buffers_in_use (st : PoolState) : Int :=
  st.m_buffers_in_use

/-- Model of `PersistentBuffer::buffers_available` (PersistentBuffer.h,
line 181): the value of `m_size_list.size()`. -/
def buffers_available (st : PoolState) : Nat :=
  st.m_size_list.length

/-- Model of `PersistentBuffer::buffer_in_use` (cpp lines 447-451):
`buffer.get() && buffer->m_in_use`. -/
def buffer_in_use (st : PoolState) (h : Option Nat) : Bool :=
  match h with
  | none => false
  | some id => (getBuf st id).m_in_use

/-- Model of `PersistentBuffer::reset` (cpp lines 418-425): clears the policy bits,
re-sets `ZeroBuffer`, calls `Buffer::reset` on every record registered
in `m_buffers`, and clears `m_buffers`.  Note that the source leaves
`m_size_list` and `m_buffers_in_use` untouched. -/
def reset (st : PoolState) : PoolState :=
  { st with m_policies := Policies.clearAll.set .ZeroBuffer,
            heap := st.m_buffers.foldl
              (fun h id => h.set id (h.getD id {}).resetRecord) st.heap,
            m_buffers := [] }

/-- The drop criterion of `garbage_collect` (cpp line 460): the record is
free and `start_time - m_last_used` strictly exceeds `m_cleanup_timeout`. -/
def tooOld (st : PoolState) (start_time : Int) (id : Nat) : Bool :=
  !(getBuf st id).m_in_use &&
    decide (st.m_cleanup_timeout < start_time - (getBuf st id).m_last_used)

/-- Model of `PersistentBuffer::garbage_collect` (cpp lines 453-470): first collects
every registered record matching `tooOld` into `buffers_to_drop`, then
erases each collected record from `m_buffers` and (first occurrence) from
`m_size_list`. -/
def garbage_collect (st : PoolState) (start_time : Int) : PoolState :=
  let buffers_to_drop := st.m_buffers.filter (tooOld st start_time)
  { st with
    m_buffers := buffers_to_drop.foldl (fun l id => l.erase id) st.m_buffers,
    m_size_list := buffers_to_drop.foldl (fun l id => l.erase id) st.m_size_list }

/-- Model of `std::lower_bound` over `m_size_list` with comparator
`buffer->m_allocated < value` (cpp lines 478-480): on a range partitioned
by that predicate it returns the first position whose record has
`m_allocated >= min_size` (or the end position). -/
def lowerBound (st : PoolState) (min_size : Nat) : Nat :=
  st.m_size_list.findIdx (fun id => !decide ((getBuf st id).m_allocated < min_size))

/-- Comparison of two buffer ids by allocated capacity; the sort key of
`m_size_list` (cpp lines 530-532). -/
def allocLE (st : PoolState) (a b : Nat) : Prop :=
  (getBuf st a).m_allocated ≤ (getBuf st b).m_allocated

instance (st : PoolState) : DecidableRel (allocLE st) :=
  fun a b => inferInstanceAs (Decidable ((getBuf st a).m_allocated ≤ (getBuf st b).m_allocated))

instance (st : PoolState) : IsTotal Nat (allocLE st) :=
  ⟨fun a b => Nat.le_total (getBuf st a).m_allocated (getBuf st b).m_allocated⟩

instance (st : PoolState) : IsTrans Nat (allocLE st) :=
  ⟨fun _ _ _ hab hbc => Nat.le_trans hab hbc⟩

/-- The iterator search of `single_buffer_unprotected` (cpp lines 478-485):
`std::lower_bound` by capacity, then the `while` loop stepping past records
already in use (`while (iter != m_size_list.end() && (*iter)->m_in_use)`).
Returns the `BufferPtr` the loop stops on, or `none` when the iterator
reaches `m_size_list.end()`. -/
def freeScan (st : PoolState) (min_size : Nat) : Option Nat :=
  let rest := st.m_size_list.drop (lowerBound st min_size)
  let k := rest.findIdx (fun id => !(getBuf st id).m_in_use)
  if hk : k < rest.length then some (rest.get ⟨k, hk⟩) else none

/-- The reuse branch of `single_buffer_unprotected` (cpp lines 485-511):
mark the found record in-use, bump `m_buffers_in_use`, set
`m_data_size = min_size`, bump its `m_usage_count`.  (The `memset` blocks
on this path are compiled out by `#if 0`.) -/
def reuseAt (st : PoolState) (min_size : Nat) (id : Nat) : PoolState × Nat :=
  let b := getBuf st id
  let b1 := { b with m_in_use := true, m_data_size := min_size,
                     m_usage_count := b.m_usage_count + 1 }
  ({ setBuf st id b1 with m_buffers_in_use := st.m_buffers_in_use + 1 }, id)

/-- The fresh-allocation part of `single_buffer_unprotected` (cpp lines
513-532, before the garbage-collection check): create a brand-new in-use
record with `m_allocated = m_data_size = min_size` (zeroed storage when the
`ZeroBuffer` policy is on, which does not change any modelled field),
register it in `m_buffers`, bump the counter, push it onto `m_size_list`
and re-sort by allocated capacity. -/
def freshAlloc (st : PoolState) (min_size : Nat) : PoolState × Nat :=
  let id := st.heap.length
  let b : Buffer := { m_in_use := true, m_usage_count := 1,
                      m_allocated := min_size, m_data_size := min_size,
                      m_buffer := true }
  let st1 : PoolState :=
    { st with heap := st.heap ++ [b],
              m_buffers := st.m_buffers ++ [id],
              m_buffers_in_use := st.m_buffers_in_use + 1 }
  ({ st1 with
     m_size_list := List.insertionSort (allocLE st1) (st1.m_size_list ++ [id]) }, id)

/-- The throttled garbage-collection check at the end of the fresh branch
(cpp lines 534-543): only when the `DropOld` policy is set and
`m_cleanup_timeout` is nonzero, and `now - m_last_cleanup_check` strictly
exceeds the timeout, stamp `m_last_cleanup_check = now` and sweep. -/
def gcGate (st : PoolState) (now : Int) : PoolState :=
  if st.m_policies.dropOld ∧ st.m_cleanup_timeout ≠ 0 then
    if st.m_cleanup_timeout < now - st.m_last_cleanup_check then
      garbage_collect { st with m_last_cleanup_check := now } now
    else st
  else st

/-- Model of `PersistentBuffer::single_buffer_unprotected` (cpp lines
472-546).  Returns the updated pool state and the returned `BufferPtr`
(never null).  When the scan finds a free record the function returns from
the reuse branch at line 510; otherwise it allocates fresh and then runs
the garbage-collection gate. -/
def single_buffer_unprotected (st : PoolState) (min_size : Nat) (now : Int) :
    PoolState × Nat :=
  match freeScan st min_size with
  | some id => reuseAt st min_size id
  | none =>
    let r := freshAlloc st min_size
    (gcGate r.1 now, r.2)

/-- `PersistentBuffer::single_buffer` (cpp lines 427-431): takes the lock
and delegates; in the sequential model it is the unprotected body. -/
def single_buffer (st : PoolState) (min_size : Nat) (now : Int) : PoolState × Nat :=
  single_buffer_unprotected st min_size now

/-- The field updates shared by every release path: mark the record free,
decrement `m_buffers_in_use`, stamp `m_last_used = time(nullptr)`. -/
def releaseFields (st : PoolState) (id : Nat) (now : Int) : PoolState :=
  let b := getBuf st id
  { setBuf st id { b with m_in_use := false, m_last_used := now } with
    m_buffers_in_use := st.m_buffers_in_use - 1 }

/-- `PersistentBuffer::release_buffer`, plain revision (cpp lines 548-559):
unconditionally re-inserts the handle into `m_buffers`
(`m_buffers[buffer] = true`), marks it free, decrements the counter and
stamps `m_last_used`.  A null handle is dereferenced (`buffer->m_in_use`),
which is undefined behavior: modelled as `none`. -/
def release_buffer (st : PoolState) (h : Option Nat) (now : Int) :
    Option (PoolState × Bool) :=
  match h with
  | none => none
  | some id =>
    let st1 := { st with m_buffers :=
      if st.m_buffers.contains id then st.m_buffers else st.m_buffers ++ [id] }
    some (releaseFields st1 id now, true)

/-- `PersistentBuffer::release_buffer`, tracking revision (cpp lines
292-332): identical except the whole body is guarded by
`if (buffer.get() && buffer->m_in_use)`; always returns true. -/
def release_buffer_guarded (st : PoolState) (h : Option Nat) (now : Int) :
    PoolState × Bool :=
  match h with
  | none => (st, true)
  | some id =>
    if (getBuf st id).m_in_use then
      let st1 := { st with m_buffers :=
        if st.m_buffers.contains id then st.m_buffers else st.m_buffers ++ [id] }
      (releaseFields st1 id now, true)
    else (st, true)

/-- `PersistentBuffer::release_buffers` (cpp lines 561-573): for each
handle in order, unconditionally marks it free, decrements the counter
and stamps `m_last_used`; unlike `release_buffer` it never touches
`m_buffers`.  A null element is dereferenced: modelled as `none`. -/
def release_buffers (st : PoolState) (hs : List (Option Nat)) (now : Int) :
    Option (PoolState × Bool) :=
  match hs with
  | [] => some (st, true)
  | none :: _ => none
  | some id :: rest => release_buffers (releaseFields st id now) rest now

/-- Unwrap the state of a release call that is known to succeed (the
fallback is never reached in any statement below; each use is paired with
an `isSome` fact or applied to a call on a non-null handle). -/
def releaseResult (r : Option (PoolState × Bool)) : PoolState :=
  (r.getD ({}, true)).1

/-! ### Invariants of the pool state

These predicates are the well-formedness facts the source relies on: the
size list is kept sorted by allocated capacity (comment on
PersistentBuffer.h line 253), every id denotes an allocated `Buffer`
object, each record is registered at most once, and the incremental
counter agrees with the flags.  They hold in the freshly initialized pool
and are preserved by acquire and by well-formed release (proved below). -/

/-- Ordering invariant of `m_size_list`: sorted ascending by `m_allocated`. -/
def SizeSorted (st : PoolState) : Prop :=
  st.m_size_list.Pairwise (allocLE st)

/-- Every `BufferPtr` in `m_size_list` points at an allocated record. -/
def SizeIdsValid (st : PoolState) : Prop :=
  ∀ id ∈ st.m_size_list, id < st.heap.length

/-- Every `BufferPtr` registered in `m_buffers` points at an allocated
record. -/
def RegIdsValid (st : PoolState) : Prop :=
  ∀ id ∈ st.m_buffers, id < st.heap.length

/-- The number of registered records whose `m_in_use` flag is set. -/
def inUseRecords (st : PoolState) : Nat :=
  st.m_buffers.countP (fun id => (getBuf st id).m_in_use)

/-- The combined pool invariant: sortedness, id validity, no duplicate
registrations, `m_size_list` registered, and the incrementally maintained
`m_buffers_in_use` equal to the number of records marked in-use. -/
def PoolInv (st : PoolState) : Prop :=
  SizeSorted st ∧ SizeIdsValid st ∧ RegIdsValid st ∧
  st.m_buffers.Nodup ∧ st.m_size_list.Nodup ∧
  (∀ id ∈ st.m_size_list, id ∈ st.m_buffers) ∧
  st.m_buffers_in_use = (inUseRecords st : Int)

instance (st : PoolState) : Decidable (SizeSorted st) := by
  unfold SizeSorted
  infer_instance

instance (st : PoolState) : Decidable (SizeIdsValid st) := by
  unfold SizeIdsValid
  infer_instance

instance (st : PoolState) : Decidable (RegIdsValid st) := by
  unfold RegIdsValid
  infer_instance

instance (st : PoolState) : Decidable (PoolInv st) := by
  unfold PoolInv
  infer_instance

/-! ### Operation sequences

A client-visible history is a list of acquire and release calls; a
release is well formed when its handle is a registered record currently
in use (no double release, no foreign or null handle). -/

/-- One client call into the pool. -/
inductive PoolOp where
  | acquire (n : Nat) (now : Int)
  | release (id : Nat) (now : Int)
deriving DecidableEq, Repr

/-- Apply one call to the pool state (the unreachable null-release fallback
keeps the function total). -/
def applyOp (st : PoolState) : PoolOp → PoolState
  | .acquire n now => (single_buffer st n now).1
  | .release id now => releaseResult (release_buffer st (some id) now)

/-- Run a sequence of calls. -/
def exec (st : PoolState) : List PoolOp → PoolState
  | [] => st
  | op :: ops => exec (applyOp st op) ops

/-- Well-formedness of one call in a given state: acquisitions are always
well formed; a release must target a registered, currently in-use record. -/
def okOp (st : PoolState) : PoolOp → Prop
  | .acquire _ _ => True
  | .release id _ => id ∈ st.m_buffers ∧ (getBuf st id).m_in_use = true

/-- A well-formed trace: every release in the sequence targets a record
that is registered and in use at that point. -/
inductive WFTrace : PoolState → List PoolOp → Prop
  | nil (st : PoolState) : WFTrace st []
  | cons (st : PoolState) (op : PoolOp) (ops : List PoolOp) :
      okOp st op → WFTrace (applyOp st op) ops → WFTrace st (op :: ops)

/-- Number of acquisitions in a call sequence. -/
def acqCount : List PoolOp → Int
  | [] => 0
  | .acquire _ _ :: ops => acqCount ops + 1
  | .release _ _ :: ops => acqCount ops

/-- Number of releases in a call sequence. -/
def relCount : List PoolOp → Int
  | [] => 0
  | .acquire _ _ :: ops => relCount ops
  | .release _ _ :: ops => relCount ops + 1

/-! ### Concrete runs used by individual claims

Each run starts from the freshly initialized pool (`cleanup_timeout`
unset, so the garbage-collection gate never fires); call times are
arbitrary concrete stamps. -/

/-- Pool after `single_buffer(100)`: record 0 in use. -/
def c2_stA : PoolState := (single_buffer initialState 100 0).1

/-- Pool after releasing that handle: record 0 free, capacity 100. -/
def c2_stB : PoolState := releaseResult (release_buffer c2_stA (some 0) 1)

/-- Pool after `single_buffer(1)`: record 0 in use. -/
def c3_st1 : PoolState := (single_buffer initialState 1 0).1

/-- Pool after releasing that handle. -/
def c3_st2 : PoolState := releaseResult (release_buffer c3_st1 (some 0) 1)

/-- Pool after `single_buffer(1)`: record 0 in use. -/
def c4_st : PoolState := (single_buffer initialState 1 0).1

/-- Pool after releasing handle 0 once. -/
def c4_once : PoolState := releaseResult (release_buffer c4_st (some 0) 1)

/-- Pool after releasing handle 0 a second time (same time stamp). -/
def c4_twice : PoolState := releaseResult (release_buffer c4_once (some 0) 1)

/-- Call sequence with a double release: acquire A, acquire B, release A,
release A again. -/
def c5_ops : List PoolOp :=
  [.acquire 1 0, .acquire 1 0, .release 0 1, .release 0 1]

/-- A well-formed call sequence: acquire, release that handle, acquire. -/
def c5w_ops : List PoolOp :=
  [.acquire 4 0, .release 0 1, .acquire 2 2]

/-- Result of requesting a zero-size buffer from the fresh pool. -/
def c6_run : PoolState × Nat := single_buffer initialState 0 0

/-- Pool holding a record that survived `reset()`: the record (id 0) is
still referenced by a caller handle and still sits in `m_size_list`, but
`m_buffers` is empty, so the handle is no longer registered. -/
def c9_st : PoolState := reset (single_buffer initialState 1 0).1

/-- Pool with two registered in-use records (ids 0 and 1). -/
def c9_two : PoolState :=
  (single_buffer (single_buffer initialState 1 0).1 2 0).1

end PersistentBuffer

open PersistentBuffer

/-! ## Helper lemmas -/

theorem getD_set_self_of_lt {α : Type} (l : List α) (i : Nat) (a d : α)
    (h : i < l.length) : (l.set i a).getD i d = a := by
  simp [List.getD_eq_getElem?_getD, List.getElem?_set_self h]

theorem getD_set_ne_of_ne {α : Type} (l : List α) (i j : Nat) (a d : α)
    (h : i ≠ j) : (l.set i a).getD j d = l.getD j d := by
  simp [List.getD_eq_getElem?_getD, List.getElem?_set_ne h]

theorem getD_append_of_lt {α : Type} (l l2 : List α) (i : Nat) (d : α)
    (h : i < l.length) : (l ++ l2).getD i d = l.getD i d := by
  simp [List.getD_eq_getElem?_getD, List.getElem?_append_left h]

theorem getD_append_length {α : Type} (l : List α) (a d : α) :
    (l ++ [a]).getD l.length d = a := by
  simp [List.getD_eq_getElem?_getD, List.getElem?_append_right (le_refl l.length)]

theorem getBuf_setBuf_self (st : PoolState) (id : Nat) (b : Buffer)
    (h : id < st.heap.length) : getBuf (setBuf st id b) id = b := by
  simpa [getBuf, setBuf] using getD_set_self_of_lt st.heap id b {} h

theorem getBuf_setBuf_ne (st : PoolState) (id j : Nat) (b : Buffer)
    (h : id ≠ j) : getBuf (setBuf st id b) j = getBuf st j := by
  simpa [getBuf, setBuf] using getD_set_ne_of_ne st.heap id j b {} h

theorem lowerBound_le_length (st : PoolState) (N : Nat) :
    lowerBound st N ≤ st.m_size_list.length :=
  List.findIdx_le_length _

theorem alloc_lt_of_lt_lowerBound (st : PoolState) (N : Nat) (i : Nat)
    (hi : i < st.m_size_list.length) (hlb : i < lowerBound st N) :
    (getBuf st st.m_size_list[i]).m_allocated < N := by
  have h := @List.not_of_lt_findIdx _
    (fun id => !decide ((getBuf st id).m_allocated < N)) st.m_size_list i hlb
  simpa using h

theorem le_alloc_at_lowerBound (st : PoolState) (N : Nat)
    (h : lowerBound st N < st.m_size_list.length) :
    N ≤ (getBuf st st.m_size_list[lowerBound st N]).m_allocated := by
  have hp := @List.findIdx_getElem _
    (fun id => !decide ((getBuf st id).m_allocated < N)) st.m_size_list h
  simp only [Bool.not_eq_true', decide_eq_false_iff_not, not_lt] at hp
  exact hp

theorem sorted_alloc_mono (st : PoolState) (hs : SizeSorted st) (i j : Nat)
    (hij : i ≤ j) (hj : j < st.m_size_list.length) :
    (getBuf st st.m_size_list[i]).m_allocated ≤ (getBuf st st.m_size_list[j]).m_allocated := by
  rcases Nat.lt_or_ge i j with hlt | hge
  · exact List.pairwise_iff_getElem.mp hs i j (Nat.lt_of_lt_of_le hlt (Nat.le_of_lt hj)) hj hlt
  · have : i = j := Nat.le_antisymm hij hge
    subst this
    exact Nat.le_refl _

theorem freeScan_spec (st : PoolState) (N : Nat) (id : Nat)
    (h : freeScan st N = some id) :
    ∃ m, ∃ hm : m < st.m_size_list.length,
      st.m_size_list[m] = id ∧ lowerBound st N ≤ m ∧
      (getBuf st id).m_in_use = false ∧
      ∀ i (hi : i < st.m_size_list.length), lowerBound st N ≤ i → i < m →
        (getBuf st st.m_size_list[i]).m_in_use = true := by
  simp only [freeScan] at h
  split at h
  case isTrue hk =>
    set lb := lowerBound st N with hlb
    set rest := st.m_size_list.drop lb with hrest
    set k := rest.findIdx (fun id => !(getBuf st id).m_in_use) with hkdef
    have hrl : rest.length = st.m_size_list.length - lb := by
      simp [hrest]
    have hlbl : lb ≤ st.m_size_list.length := lowerBound_le_length st N
    have hm : lb + k < st.m_size_list.length := by omega
    have hidr : rest.get ⟨k, hk⟩ = id := Option.some.inj h
    have hgk : rest.get ⟨k, hk⟩ = st.m_size_list[lb + k] := by
      simp [hrest, List.getElem_drop st.m_size_list (i := lb) (j := k)]
    refine ⟨lb + k, hm, by rw [← hgk, hidr], Nat.le_add_right _ _, ?_, ?_⟩
    · have hfree := @List.findIdx_getElem _
        (fun id => !(getBuf st id).m_in_use) rest hk
      rw [List.get_eq_getElem] at hidr hgk
      rw [hidr] at hfree
      simpa using hfree
    · intro i hi hge hlt
      have hik : i - lb < k := by omega
      have hbusy := @List.not_of_lt_findIdx _
        (fun id => !(getBuf st id).m_in_use) rest (i - lb) hik
      have hri : i - lb < rest.length := by omega
      have hgi : rest[i - lb] = st.m_size_list[lb + (i - lb)] :=
        List.getElem_drop st.m_size_list
      have hii : lb + (i - lb) = i := by omega
      rw [hgi] at hbusy
      simp only [hii] at hbusy
      simpa using hbusy
  case isFalse =>
    exact absurd h (by simp)

theorem freeScan_none_spec (st : PoolState) (N : Nat)
    (h : freeScan st N = none) :
    ∀ i (hi : i < st.m_size_list.length), lowerBound st N ≤ i →
      (getBuf st st.m_size_list[i]).m_in_use = true := by
  simp only [freeScan] at h
  split at h
  case isTrue hk => exact absurd h (by simp)
  case isFalse hk =>
    intro i hi hge
    set lb := lowerBound st N with hlb
    set rest := st.m_size_list.drop lb with hrest
    have hrl : rest.length = st.m_size_list.length - lb := by simp [hrest]
    have hik : i - lb < rest.findIdx (fun id => !(getBuf st id).m_in_use) := by omega
    have hbusy := @List.not_of_lt_findIdx _
      (fun id => !(getBuf st id).m_in_use) rest (i - lb) hik
    have hri : i - lb < rest.length := by omega
    have hgi : rest[i - lb] = st.m_size_list[lb + (i - lb)] :=
      List.getElem_drop st.m_size_list
    have hii : lb + (i - lb) = i := by omega
    rw [hgi] at hbusy
    simp only [hii] at hbusy
    simpa using hbusy

theorem freeScan_mem (st : PoolState) (N : Nat) (id : Nat)
    (h : freeScan st N = some id) : id ∈ st.m_size_list := by
  obtain ⟨m, hm, hid, -, -, -⟩ := freeScan_spec st N id h
  exact hid ▸ List.getElem_mem hm

theorem freeScan_free (st : PoolState) (N : Nat) (id : Nat)
    (h : freeScan st N = some id) : (getBuf st id).m_in_use = false := by
  obtain ⟨-, -, -, -, hfree, -⟩ := freeScan_spec st N id h
  exact hfree

theorem freeScan_alloc_ge (st : PoolState) (N : Nat) (id : Nat)
    (hs : SizeSorted st) (h : freeScan st N = some id) :
    N ≤ (getBuf st id).m_allocated := by
  obtain ⟨m, hm, hid, hge, -, -⟩ := freeScan_spec st N id h
  have hlb : lowerBound st N < st.m_size_list.length := Nat.lt_of_le_of_lt hge hm
  calc N ≤ (getBuf st st.m_size_list[lowerBound st N]).m_allocated :=
        le_alloc_at_lowerBound st N hlb
    _ ≤ (getBuf st st.m_size_list[m]).m_allocated :=
        sorted_alloc_mono st hs _ m hge hm
    _ = (getBuf st id).m_allocated := by rw [hid]

theorem freeScan_minimal (st : PoolState) (N : Nat) (id : Nat)
    (hs : SizeSorted st) (h : freeScan st N = some id) :
    ∀ j ∈ st.m_size_list, (getBuf st j).m_in_use = false →
      N ≤ (getBuf st j).m_allocated →
      (getBuf st id).m_allocated ≤ (getBuf st j).m_allocated := by
  obtain ⟨m, hm, hid, hge, -, hscan⟩ := freeScan_spec st N id h
  intro j hj hjfree hjalloc
  obtain ⟨mj, hmj, hjid⟩ := List.mem_iff_getElem.mp hj
  have hmjlb : lowerBound st N ≤ mj := by
    by_contra hlt
    have := alloc_lt_of_lt_lowerBound st N mj hmj (Nat.lt_of_not_le hlt)
    rw [hjid] at this
    omega
  have hmle : m ≤ mj := by
    by_contra hlt
    have := hscan mj hmj hmjlb (Nat.lt_of_not_le hlt)
    rw [hjid] at this
    rw [this] at hjfree
    exact Bool.noConfusion hjfree
  have := sorted_alloc_mono st hs m mj hmle hmj
  rw [hid, hjid] at this
  exact this

theorem freeScan_none_no_candidate (st : PoolState) (N : Nat)
    (h : freeScan st N = none) :
    ∀ j ∈ st.m_size_list, (getBuf st j).m_in_use = false →
      ¬ N ≤ (getBuf st j).m_allocated := by
  intro j hj hjfree hjalloc
  obtain ⟨mj, hmj, hjid⟩ := List.mem_iff_getElem.mp hj
  have hmjlb : lowerBound st N ≤ mj := by
    by_contra hlt
    have := alloc_lt_of_lt_lowerBound st N mj hmj (Nat.lt_of_not_le hlt)
    rw [hjid] at this
    omega
  have := freeScan_none_spec st N h mj hmj hmjlb
  rw [hjid] at this
  rw [this] at hjfree
  exact Bool.noConfusion hjfree

theorem single_buffer_reuse_eq (st : PoolState) (N : Nat) (now : Int) (id : Nat)
    (h : freeScan st N = some id) :
    single_buffer st N now = reuseAt st N id := by
  simp [single_buffer, single_buffer_unprotected, h]

theorem single_buffer_fresh_eq (st : PoolState) (N : Nat) (now : Int)
    (h : freeScan st N = none) :
    single_buffer st N now = (gcGate (freshAlloc st N).1 now, (freshAlloc st N).2) := by
  simp [single_buffer, single_buffer_unprotected, h]

theorem gcGate_heap (st : PoolState) (now : Int) :
    (gcGate st now).heap = st.heap := by
  unfold gcGate garbage_collect
  split
  · split <;> rfl
  · rfl

theorem getBuf_gcGate (st : PoolState) (now : Int) (id : Nat) :
    getBuf (gcGate st now) id = getBuf st id := by
  unfold getBuf
  rw [gcGate_heap]

theorem getBuf_counter (st : PoolState) (c : Int) (id : Nat) :
    getBuf { st with m_buffers_in_use := c } id = getBuf st id := rfl

theorem getBuf_sizeList (st : PoolState) (l : List Nat) (id : Nat) :
    getBuf { st with m_size_list := l } id = getBuf st id := rfl

/-! ## Claim theorems -/

/-- C1: for every requested size N > 0, acquisition (`single_buffer(N)`)
returns a handle to a buffer record whose allocated capacity is at least
N, whose in-use flag is true, and whose `m_data_size` field equals N; the
proof covers both the reuse branch and the fresh-allocation branch of
`single_buffer_unprotected`. -/
theorem C1_acquire_contract (st : PoolState) (N : Nat) (now : Int)
    (hs : SizeSorted st) (hv : SizeIdsValid st) (_hN : 0 < N) :
    N ≤ (getBuf (single_buffer st N now).1 (single_buffer st N now).2).m_allocated ∧
    (getBuf (single_buffer st N now).1 (single_buffer st N now).2).m_in_use = true ∧
    (getBuf (single_buffer st N now).1 (single_buffer st N now).2).m_data_size = N := by
  cases hscan : freeScan st N with
  | some id =>
    have hmem := freeScan_mem st N id hscan
    have hlt : id < st.heap.length := hv id hmem
    have halloc := freeScan_alloc_ge st N id hs hscan
    rw [single_buffer_reuse_eq st N now id hscan]
    simp only [reuseAt, getBuf_counter]
    rw [getBuf_setBuf_self st id _ hlt]
    exact ⟨halloc, rfl, rfl⟩
  | none =>
    rw [single_buffer_fresh_eq st N now hscan]
    simp only [getBuf_gcGate]
    simp only [freshAlloc, getBuf_sizeList]
    simp [getBuf, getD_append_length]

/-- Witness for C1 at a concrete input: the fresh pool and N = 3. -/
theorem C1_acquire_contract_witness :
    3 ≤ (getBuf (single_buffer initialState 3 0).1 (single_buffer initialState 3 0).2).m_allocated ∧
    (getBuf (single_buffer initialState 3 0).1 (single_buffer initialState 3 0).2).m_in_use = true ∧
    (getBuf (single_buffer initialState 3 0).1 (single_buffer initialState 3 0).2).m_data_size = 3 :=
  C1_acquire_contract initialState 3 0 (by constructor) (by simp [SizeIdsValid, initialState, initializePool, staticState]) (by decide)

/-- C2: acquisition is first-fit-by-capacity over the capacity-sorted free
index: when the scan finds a record it is a free member of `m_size_list`
with capacity at least N whose capacity is minimal among all free records
of sufficient capacity, it is the returned handle, and no fresh record is
allocated; a fresh record (growing the heap by one) is allocated exactly
when no free record of capacity at least N exists.  The last conjunct is
the spec scenario: acquire 100 bytes, release, acquire 50 bytes — the
second acquisition returns the same record 0 and the allocated-buffer
count stays at 1. -/
theorem C2_first_fit_policy (st : PoolState) (N : Nat) (now : Int)
    (hs : SizeSorted st) :
    (∀ id, freeScan st N = some id →
      id ∈ st.m_size_list ∧ (getBuf st id).m_in_use = false ∧
      N ≤ (getBuf st id).m_allocated ∧
      (single_buffer st N now).2 = id ∧
      (single_buffer st N now).1.heap.length = st.heap.length ∧
      ∀ j ∈ st.m_size_list, (getBuf st j).m_in_use = false →
        N ≤ (getBuf st j).m_allocated →
        (getBuf st id).m_allocated ≤ (getBuf st j).m_allocated) ∧
    (freeScan st N = none →
      (¬ ∃ j ∈ st.m_size_list, (getBuf st j).m_in_use = false ∧
          N ≤ (getBuf st j).m_allocated) ∧
      (single_buffer st N now).1.heap.length = st.heap.length + 1) ∧
    ((single_buffer c2_stB 50 2).2 = (single_buffer initialState 100 0).2 ∧
      buffers_available (single_buffer c2_stB 50 2).1 = 1) := by
  refine ⟨?_, ?_, by decide⟩
  · intro id h
    refine ⟨freeScan_mem st N id h, freeScan_free st N id h,
      freeScan_alloc_ge st N id hs h, ?_, ?_, freeScan_minimal st N id hs h⟩
    · rw [single_buffer_reuse_eq st N now id h]
      simp [reuseAt]
    · rw [single_buffer_reuse_eq st N now id h]
      simp [reuseAt, setBuf]
  · intro h
    constructor
    · rintro ⟨j, hj, hjfree, hjalloc⟩
      exact freeScan_none_no_candidate st N h j hj hjfree hjalloc
    · rw [single_buffer_fresh_eq st N now h]
      show (gcGate (freshAlloc st N).1 now).heap.length = _
      rw [gcGate_heap]
      simp [freshAlloc]

/-- Witness for C2 at a concrete input: in the pool holding the released
100-byte record, a 50-byte request reuses record 0 and does not grow the
heap. -/
theorem C2_first_fit_policy_witness :
    (single_buffer c2_stB 50 2).2 = 0 ∧
    (single_buffer c2_stB 50 2).1.heap.length = c2_stB.heap.length := by
  have h := C2_first_fit_policy c2_stB 50 2 (by decide)
  have h0 := h.1 0 (by decide)
  exact ⟨h0.2.2.2.1, h0.2.2.2.2.1⟩

/-- C10: for every seconds value, including 0, `set_cleanup_timeout`
unconditionally enables the `DropOld` policy, so after
`set_cleanup_timeout(0)` (which the spec describes as disabling eviction)
`policy_is_active(DropOld)` reports true. -/
theorem C10_set_cleanup_timeout_enables_DropOld (st : PoolState) (seconds now : Int) :
    policy_is_active (set_cleanup_timeout st seconds now) .DropOld = true := rfl

/-- C3 (code bug): run initialize; acquire(1); release; reset().  The
source's `reset` clears `m_buffers` (and the records) but leaves
`m_size_list` untouched, so `buffers_available()` still reports 1 instead
of 0 — the record remains in the free index as a cleared zombie, against
the header's documented contract to clear all allocated buffers. -/
theorem C3_reset_keeps_free_index :
    buffers_available (reset c3_st2) = 1 ∧
    (reset c3_st2).m_buffers = [] ∧
    (reset c3_st2).m_size_list = [0] ∧
    getBuf (reset c3_st2) 0 = { m_usage_count := 1 } := by
  decide

/-- C4 (code bug): in the plain revision's `release_buffer`, releasing is
not guarded: a second release of the same handle decrements the in-use
counter again (0 becomes -1) and so is not a no-op; a null handle is
dereferenced (modelled as `none`).  The tracking revision's guarded
variant behaves exactly as the claim states: second release and null
release are no-ops that still report success. -/
theorem C4_double_release_not_noop :
    release_buffer c4_st none 1 = none ∧
    buffers_in_use c4_once = 0 ∧
    (release_buffer c4_once (some 0) 1).isSome = true ∧
    buffers_in_use c4_twice = -1 ∧
    c4_twice ≠ c4_once ∧
    release_buffer_guarded c4_once (some 0) 1 = (c4_once, true) ∧
    release_buffer_guarded c4_st none 1 = (c4_st, true) := by
  decide

/-- C6 counterexample: a size-0 acquisition from the fresh pool is not
rejected — the call returns a record marked in-use with zero capacity and
zero data size, refuting the claim that `single_buffer(0)` does not
return a valid in-use buffer. -/
theorem C6_counterexample_zero_accepted :
    buffer_in_use c6_run.1 (some c6_run.2) = true ∧
    (getBuf c6_run.1 c6_run.2).m_allocated = 0 ∧
    (getBuf c6_run.1 c6_run.2).m_data_size = 0 := by
  decide

/-- C6 amended: acquisition with size 0 is accepted like any other size
(no rejection path exists): the returned record is marked in-use with
`m_data_size = 0`. -/
theorem C6_amended_zero_size_allocates (st : PoolState) (now : Int)
    (hv : SizeIdsValid st) :
    (getBuf (single_buffer st 0 now).1 (single_buffer st 0 now).2).m_in_use = true ∧
    (getBuf (single_buffer st 0 now).1 (single_buffer st 0 now).2).m_data_size = 0 := by
  cases hscan : freeScan st 0 with
  | some id =>
    have hlt : id < st.heap.length := hv id (freeScan_mem st 0 id hscan)
    rw [single_buffer_reuse_eq st 0 now id hscan]
    simp only [reuseAt, getBuf_counter]
    rw [getBuf_setBuf_self st id _ hlt]
    exact ⟨rfl, rfl⟩
  | none =>
    rw [single_buffer_fresh_eq st 0 now hscan]
    simp only [getBuf_gcGate]
    simp only [freshAlloc, getBuf_sizeList]
    simp [getBuf, getD_append_length]

/-- Witness for the amended C6 at the fresh pool. -/
theorem C6_amended_zero_size_allocates_witness :
    (getBuf (single_buffer initialState 0 0).1 (single_buffer initialState 0 0).2).m_in_use = true ∧
    (getBuf (single_buffer initialState 0 0).1 (single_buffer initialState 0 0).2).m_data_size = 0 :=
  C6_amended_zero_size_allocates initialState 0 (by decide)

theorem foldl_erase_eq_filter (drop : List Nat) : ∀ l : List Nat, l.Nodup →
    drop.foldl (fun acc id => acc.erase id) l =
      l.filter (fun a => !drop.contains a) := by
  induction drop with
  | nil =>
    intro l _
    simp
  | cons d ds ih =>
    intro l hl
    simp only [List.foldl_cons]
    rw [ih (l.erase d) (hl.erase d)]
    rw [List.Nodup.erase_eq_filter hl d]
    rw [List.filter_filter]
    congr 1
    funext a
    by_cases had : a = d <;> simp [had]

theorem mem_foldl_erase (drop l : List Nat) (hl : l.Nodup) (a : Nat) :
    a ∈ drop.foldl (fun acc id => acc.erase id) l ↔ a ∈ l ∧ a ∉ drop := by
  rw [foldl_erase_eq_filter drop l hl]
  simp [List.mem_filter]

theorem tooOld_iff (st : PoolState) (now : Int) (id : Nat) :
    tooOld st now id = true ↔
    ((getBuf st id).m_in_use = false ∧
      st.m_cleanup_timeout < now - (getBuf st id).m_last_used) := by
  simp [tooOld, Bool.not_eq_true']

/-- C7: an eviction sweep removes a registered record exactly when it is
not in use and its idle time strictly exceeds the configured timeout; it
never removes an in-use record, never removes a record below the timeout,
and leaves every record's fields (the whole heap) unchanged. -/
theorem C7_eviction_criteria (st : PoolState) (now : Int)
    (hnd : st.m_buffers.Nodup) (hnds : st.m_size_list.Nodup) :
    (garbage_collect st now).heap = st.heap ∧
    (∀ id, getBuf (garbage_collect st now) id = getBuf st id) ∧
    (∀ id, id ∈ (garbage_collect st now).m_buffers ↔
      id ∈ st.m_buffers ∧
      ¬((getBuf st id).m_in_use = false ∧
        st.m_cleanup_timeout < now - (getBuf st id).m_last_used)) ∧
    (∀ id, id ∈ (garbage_collect st now).m_size_list ↔
      id ∈ st.m_size_list ∧
      ¬(id ∈ st.m_buffers ∧ (getBuf st id).m_in_use = false ∧
        st.m_cleanup_timeout < now - (getBuf st id).m_last_used)) ∧
    (∀ id ∈ st.m_buffers, (getBuf st id).m_in_use = true →
      id ∈ (garbage_collect st now).m_buffers) := by
  refine ⟨rfl, fun id => rfl, ?_, ?_, ?_⟩
  · intro id
    show id ∈ (st.m_buffers.filter (tooOld st now)).foldl
        (fun acc id => acc.erase id) st.m_buffers ↔ _
    rw [mem_foldl_erase _ _ hnd]
    simp only [List.mem_filter, tooOld_iff]
    constructor
    · rintro ⟨hmem, hnot⟩
      exact ⟨hmem, fun hcond => hnot ⟨hmem, hcond⟩⟩
    · rintro ⟨hmem, hnot⟩
      exact ⟨hmem, fun hcond => hnot hcond.2⟩
  · intro id
    show id ∈ (st.m_buffers.filter (tooOld st now)).foldl
        (fun acc id => acc.erase id) st.m_size_list ↔ _
    rw [mem_foldl_erase _ _ hnds]
    simp only [List.mem_filter, tooOld_iff]
  · intro id hmem huse
    show id ∈ (st.m_buffers.filter (tooOld st now)).foldl
        (fun acc id => acc.erase id) st.m_buffers
    rw [mem_foldl_erase _ _ hnd]
    refine ⟨hmem, fun hdrop => ?_⟩
    have := (List.mem_filter.mp hdrop).2
    rw [tooOld_iff] at this
    rw [huse] at this
    exact Bool.noConfusion this.1

/-- Witness for C7: the sweep on the pool holding one released record,
with timeout 0 and sweep time 5 — the idle record is removed from the
registry while the heap is untouched. -/
theorem C7_eviction_criteria_witness :
    (garbage_collect c3_st2 5).heap = c3_st2.heap ∧
    (0 ∈ (garbage_collect c3_st2 5).m_buffers ↔
      0 ∈ c3_st2.m_buffers ∧
      ¬((getBuf c3_st2 0).m_in_use = false ∧
        c3_st2.m_cleanup_timeout < 5 - (getBuf c3_st2 0).m_last_used)) := by
  have h := C7_eviction_criteria c3_st2 5 (by decide) (by decide)
  exact ⟨h.1, h.2.2.1 0⟩

/-- C8: eviction never runs except synchronously inside an acquisition
that allocated a fresh record, and only when `DropOld` is active, the
timeout is nonzero, and the elapsed time since the last check strictly
exceeds the timeout.  Conjuncts: (1) a reuse-path acquisition leaves the
registry and free index untouched; (2) the gate does nothing unless all
three conditions hold; (3) in particular, a zero timeout disables the
sweep entirely; (4) when the conditions hold the gate is exactly the
sweep (with the throttle stamp updated); (5) a fresh-path acquisition is
the fresh allocation followed by the gate — the only place the gate
appears; (6) and (7) single and batch release never remove a registry or
free-index entry. -/
theorem C8_eviction_only_on_fresh_alloc :
    (∀ st N id, ∀ now : Int, freeScan st N = some id →
      (single_buffer st N now).1.m_buffers = st.m_buffers ∧
      (single_buffer st N now).1.m_size_list = st.m_size_list) ∧
    (∀ st, ∀ now : Int, ¬(st.m_policies.dropOld = true ∧ st.m_cleanup_timeout ≠ 0 ∧
        st.m_cleanup_timeout < now - st.m_last_cleanup_check) →
      gcGate st now = st) ∧
    (∀ st, ∀ now : Int, st.m_cleanup_timeout = 0 → gcGate st now = st) ∧
    (∀ st, ∀ now : Int, st.m_policies.dropOld = true → st.m_cleanup_timeout ≠ 0 →
      st.m_cleanup_timeout < now - st.m_last_cleanup_check →
      gcGate st now = garbage_collect { st with m_last_cleanup_check := now } now) ∧
    (∀ st N, ∀ now : Int, freeScan st N = none →
      single_buffer st N now = (gcGate (freshAlloc st N).1 now, (freshAlloc st N).2)) ∧
    (∀ st h st2 b, ∀ now : Int, release_buffer st h now = some (st2, b) →
      st2.m_size_list = st.m_size_list ∧ ∀ j ∈ st.m_buffers, j ∈ st2.m_buffers) ∧
    (∀ hs st st2 b, ∀ now : Int, release_buffers st hs now = some (st2, b) →
      st2.m_size_list = st.m_size_list ∧ st2.m_buffers = st.m_buffers) := by
  have hgate : ∀ st, ∀ now : Int,
      ¬(st.m_policies.dropOld = true ∧ st.m_cleanup_timeout ≠ 0 ∧
        st.m_cleanup_timeout < now - st.m_last_cleanup_check) →
      gcGate st now = st := by
    intro st now hcond
    unfold gcGate
    split
    case isTrue h1 =>
      split
      case isTrue h2 => exact absurd ⟨h1.1, h1.2, h2⟩ hcond
      case isFalse h2 => rfl
    case isFalse h1 => rfl
  refine ⟨?_, hgate, ?_, ?_, ?_, ?_, ?_⟩
  · intro st N id now h
    rw [single_buffer_reuse_eq st N now id h]
    exact ⟨rfl, rfl⟩
  · intro st now h0
    exact hgate st now (by simp [h0])
  · intro st now hdrop hne hlt
    unfold gcGate
    rw [if_pos ⟨hdrop, hne⟩, if_pos hlt]
  · intro st N now h
    exact single_buffer_fresh_eq st N now h
  · intro st h st2 b now heq
    match h with
    | none => exact absurd heq (by simp [release_buffer])
    | some id =>
      simp only [release_buffer, Option.some.injEq, Prod.mk.injEq] at heq
      obtain ⟨h1, -⟩ := heq
      subst h1
      refine ⟨rfl, ?_⟩
      intro j hj
      show j ∈ (if st.m_buffers.contains id then st.m_buffers
                 else st.m_buffers ++ [id])
      split
      · exact hj
      · exact List.mem_append_left _ hj
  · intro hs
    induction hs with
    | nil =>
      intro st st2 b now heq
      simp only [release_buffers, Option.some.injEq, Prod.mk.injEq] at heq
      obtain ⟨h1, -⟩ := heq
      subst h1
      exact ⟨rfl, rfl⟩
    | cons hd tl ih =>
      intro st st2 b now heq
      match hd with
      | none => exact absurd heq (by simp [release_buffers])
      | some id =>
        simp only [release_buffers] at heq
        exact ih (releaseFields st id now) st2 b now heq

/-- Witness for C8: with the default zero timeout the gate does nothing,
and releasing the in-use handle of the one-record pool removes nothing. -/
theorem C8_eviction_only_on_fresh_alloc_witness :
    gcGate c4_st 7 = c4_st ∧
    (releaseResult (release_buffer c4_st (some 0) 1)).m_size_list = c4_st.m_size_list := by
  have h := C8_eviction_only_on_fresh_alloc
  refine ⟨h.2.2.1 c4_st 7 (by decide), ?_⟩
  exact (h.2.2.2.2.2.1 c4_st (some 0) (releaseResult (release_buffer c4_st (some 0) 1)) true 1 (by decide)).1

/-- C9 counterexample: for a handle that is not registered in `m_buffers`
(here: a handle that survived `reset()`), `release_buffer` re-inserts the
record into the registry (`m_buffers[buffer] = true`) while
`release_buffers` never touches the registry, so batch release of the
set {handle} ends in a different pool state than the individual release. -/
theorem C9_counterexample_batch_differs :
    (release_buffer c9_st (some 0) 5).isSome = true ∧
    (release_buffers c9_st [some 0] 5).isSome = true ∧
    (releaseResult (release_buffer c9_st (some 0) 5)).m_buffers = [0] ∧
    (releaseResult (release_buffers c9_st [some 0] 5)).m_buffers = [] ∧
    releaseResult (release_buffer c9_st (some 0) 5) ≠
      releaseResult (release_buffers c9_st [some 0] 5) := by
  decide

theorem poolStateExt {s1 s2 : PoolState}
    (h1 : s1.heap = s2.heap) (h2 : s1.m_cleanup_timeout = s2.m_cleanup_timeout)
    (h3 : s1.m_last_cleanup_check = s2.m_last_cleanup_check)
    (h4 : s1.m_policies = s2.m_policies) (h5 : s1.m_buffers = s2.m_buffers)
    (h6 : s1.m_buffers_in_use = s2.m_buffers_in_use)
    (h7 : s1.m_size_list = s2.m_size_list)
    (h8 : s1.m_initialized = s2.m_initialized) : s1 = s2 := by
  cases s1
  cases s2
  simp_all

theorem getBuf_releaseFields_ne (st : PoolState) (a b : Nat) (now : Int)
    (hab : a ≠ b) : getBuf (releaseFields st a now) b = getBuf st b := by
  simp only [releaseFields, getBuf_counter]
  exact getBuf_setBuf_ne st a b _ hab

theorem releaseFields_comm (st : PoolState) (a b : Nat) (now : Int) :
    releaseFields (releaseFields st a now) b now =
    releaseFields (releaseFields st b now) a now := by
  by_cases hab : a = b
  · subst hab
    rfl
  · refine poolStateExt ?_ rfl rfl rfl rfl rfl rfl rfl
    show (releaseFields st a now).heap.set b
        { getBuf (releaseFields st a now) b with m_in_use := false, m_last_used := now } =
      (releaseFields st b now).heap.set a
        { getBuf (releaseFields st b now) a with m_in_use := false, m_last_used := now }
    rw [getBuf_releaseFields_ne st a b now hab,
        getBuf_releaseFields_ne st b a now (Ne.symm hab)]
    show (st.heap.set a { getBuf st a with m_in_use := false, m_last_used := now }).set b
        { getBuf st b with m_in_use := false, m_last_used := now } =
      (st.heap.set b { getBuf st b with m_in_use := false, m_last_used := now }).set a
        { getBuf st a with m_in_use := false, m_last_used := now }
    exact List.set_comm _ _ _ hab

theorem releaseResult_some (st : PoolState) (b : Bool) :
    releaseResult (some (st, b)) = st := rfl

theorem release_buffer_registered (s : PoolState) (id : Nat) (now : Int)
    (h : id ∈ s.m_buffers) :
    release_buffer s (some id) now = some (releaseFields s id now, true) := by
  have hc : s.m_buffers.contains id = true := by
    simpa using h
  simp only [release_buffer]
  rw [if_pos hc]

theorem release_buffers_eq_foldl (ids : List Nat) (now : Int) : ∀ st : PoolState,
    release_buffers st (ids.map some) now =
      some (ids.foldl (fun s id => releaseFields s id now) st, true) := by
  induction ids with
  | nil => intro st; rfl
  | cons a rest ih =>
    intro st
    simp only [List.map_cons, release_buffers, List.foldl_cons]
    exact ih (releaseFields st a now)

theorem foldl_release_eq_foldl_fields (ids : List Nat) (now : Int) :
    ∀ st : PoolState, (∀ id ∈ ids, id ∈ st.m_buffers) →
    ids.foldl (fun s id => releaseResult (release_buffer s (some id) now)) st =
    ids.foldl (fun s id => releaseFields s id now) st := by
  induction ids with
  | nil => intro st _; rfl
  | cons a rest ih =>
    intro st hreg
    simp only [List.foldl_cons]
    rw [release_buffer_registered st a now (hreg a (List.mem_cons_self a rest)),
        releaseResult_some]
    exact ih (releaseFields st a now)
      (fun id hid => hreg id (List.mem_cons_of_mem a hid))

/-- C9 amended: for handles registered in the pool, batch release
(`release_buffers`) produces the same end pool state as releasing each
handle individually with `release_buffer`, in any order of the handles.
(For a handle absent from `m_buffers` the two differ: single release
re-inserts the registration, batch release does not — see the
counterexample.) -/
theorem C9_amended_batch_release (st : PoolState) (ids : List Nat) (now : Int)
    (hreg : ∀ id ∈ ids, id ∈ st.m_buffers) :
    release_buffers st (ids.map some) now =
      some (ids.foldl (fun s id => releaseResult (release_buffer s (some id) now)) st, true) ∧
    ∀ ids2, ids.Perm ids2 →
      ids.foldl (fun s id => releaseResult (release_buffer s (some id) now)) st =
      ids2.foldl (fun s id => releaseResult (release_buffer s (some id) now)) st := by
  constructor
  · rw [foldl_release_eq_foldl_fields ids now st hreg]
    exact release_buffers_eq_foldl ids now st
  · intro ids2 hperm
    have hreg2 : ∀ id ∈ ids2, id ∈ st.m_buffers :=
      fun id hid => hreg id (hperm.symm.subset hid)
    rw [foldl_release_eq_foldl_fields ids now st hreg,
        foldl_release_eq_foldl_fields ids2 now st hreg2]
    exact hperm.foldl_eq'
      (fun x _ y _ z => releaseFields_comm z x y now) st

/-- Witness for the amended C9: batch-releasing the two registered
handles equals the two individual releases. -/
theorem C9_amended_batch_release_witness :
    release_buffers c9_two ([0, 1].map some) 3 =
      some ([0, 1].foldl (fun s id => releaseResult (release_buffer s (some id) 3)) c9_two, true) :=
  (C9_amended_batch_release c9_two [0, 1] 3 (by decide)).1

theorem countP_flip (l : List Nat) (hl : l.Nodup) (a : Nat) (ha : a ∈ l)
    (p q : Nat → Bool) (hagree : ∀ x ∈ l, x ≠ a → q x = p x)
    (hpa : p a = false) (hqa : q a = true) :
    l.countP q = l.countP p + 1 := by
  induction l with
  | nil => cases ha
  | cons x xs ih =>
    have hx : x ∉ xs := (List.nodup_cons.mp hl).1
    have hxs : xs.Nodup := (List.nodup_cons.mp hl).2
    rcases List.mem_cons.mp ha with rfl | hmem
    · have htail : xs.countP q = xs.countP p := by
        apply List.countP_congr
        intro y hy
        rw [hagree y (List.mem_cons_of_mem _ hy) (fun hya => hx (hya ▸ hy))]
      simp [List.countP_cons, hqa, hpa, htail]
    · have hxa : x ≠ a := fun hxa => hx (hxa ▸ hmem)
      have hhead : q x = p x := hagree x (List.mem_cons_self x xs) hxa
      have := ih hxs hmem (fun y hy hya => hagree y (List.mem_cons_of_mem _ hy) hya)
      simp only [List.countP_cons, hhead, this]
      omega

theorem inv_reuseAt (st : PoolState) (N id : Nat)
    (h : freeScan st N = some id) (hinv : PoolInv st) :
    PoolInv (reuseAt st N id).1 ∧
    (reuseAt st N id).1.m_buffers_in_use = st.m_buffers_in_use + 1 := by
  obtain ⟨hs, hsv, hrv, hndb, hnds, hsub, hcnt⟩ := hinv
  have hmem := freeScan_mem st N id h
  have hfree := freeScan_free st N id h
  have hlt : id < st.heap.length := hsv id hmem
  have hgid : getBuf (reuseAt st N id).1 id =
      { getBuf st id with
          m_in_use := true,
          m_data_size := N,
          m_usage_count := (getBuf st id).m_usage_count + 1 } :=
    getD_set_self_of_lt st.heap id _ {} hlt
  have hgne : ∀ j, j ≠ id → getBuf (reuseAt st N id).1 j = getBuf st j :=
    fun j hj => getD_set_ne_of_ne st.heap id j _ {} (Ne.symm hj)
  have halloc : ∀ j, (getBuf (reuseAt st N id).1 j).m_allocated =
      (getBuf st j).m_allocated := by
    intro j
    by_cases hj : j = id
    · subst hj
      rw [hgid]
    · rw [hgne j hj]
  have hlen : (reuseAt st N id).1.heap.length = st.heap.length :=
    List.length_set st.heap id _
  refine ⟨⟨?_, ?_, ?_, hndb, hnds, hsub, ?_⟩, rfl⟩
  · exact List.Pairwise.imp
      (fun {a b} hab => by
        unfold allocLE at *
        rw [halloc a, halloc b]
        exact hab) hs
  · intro j hj
    rw [hlen]
    exact hsv j hj
  · intro j hj
    rw [hlen]
    exact hrv j hj
  · show st.m_buffers_in_use + 1 = ((List.countP
      (fun j => (getBuf (reuseAt st N id).1 j).m_in_use) st.m_buffers : Nat) : Int)
    rw [countP_flip st.m_buffers hndb id (hsub id hmem)
      (fun j => (getBuf st j).m_in_use)
      (fun j => (getBuf (reuseAt st N id).1 j).m_in_use)
      (fun x _ hxa => by
        show (getBuf (reuseAt st N id).1 x).m_in_use = (getBuf st x).m_in_use
        rw [hgne x hxa])
      hfree
      (by
        show (getBuf (reuseAt st N id).1 id).m_in_use = true
        rw [hgid])]
    simp only [inUseRecords] at hcnt
    rw [hcnt]
    rfl

theorem inv_freshAlloc (st : PoolState) (N : Nat) (hinv : PoolInv st) :
    PoolInv (freshAlloc st N).1 ∧
    (freshAlloc st N).1.m_buffers_in_use = st.m_buffers_in_use + 1 := by
  obtain ⟨hs, hsv, hrv, hndb, hnds, hsub, hcnt⟩ := hinv
  have hgold : ∀ j, j < st.heap.length →
      getBuf (freshAlloc st N).1 j = getBuf st j :=
    fun j hj => getD_append_of_lt st.heap _ j {} hj
  have hgnew : getBuf (freshAlloc st N).1 st.heap.length =
      { m_in_use := true, m_usage_count := 1, m_allocated := N,
        m_data_size := N, m_buffer := true } :=
    getD_append_length st.heap _ {}
  have hlen : (freshAlloc st N).1.heap.length = st.heap.length + 1 := by
    show (st.heap ++ [_]).length = st.heap.length + 1
    simp
  have hmemsl : ∀ j, j ∈ (freshAlloc st N).1.m_size_list →
      j ∈ st.m_size_list ∨ j = st.heap.length := by
    intro j hj
    have : j ∈ st.m_size_list ++ [st.heap.length] :=
      (List.perm_insertionSort _ _).subset hj
    simpa using this
  refine ⟨⟨?_, ?_, ?_, ?_, ?_, ?_, ?_⟩, rfl⟩
  · exact List.sorted_insertionSort _ _
  · intro j hj
    rw [hlen]
    rcases hmemsl j hj with hj2 | hj2
    · exact Nat.lt_succ_of_lt (hsv j hj2)
    · rw [hj2]
      exact Nat.lt_succ_self _
  · intro j hj
    rw [hlen]
    have hj2 : j ∈ st.m_buffers ++ [st.heap.length] := hj
    rcases List.mem_append.mp hj2 with hj3 | hj3
    · exact Nat.lt_succ_of_lt (hrv j hj3)
    · rw [List.mem_singleton.mp hj3]
      exact Nat.lt_succ_self _
  · show (st.m_buffers ++ [st.heap.length]).Nodup
    rw [List.nodup_append]
    refine ⟨hndb, List.nodup_singleton _, ?_⟩
    intro a ha ha2
    rw [List.mem_singleton.mp ha2] at ha
    exact absurd (hrv _ ha) (Nat.lt_irrefl _)
  · have hl0 : (st.m_size_list ++ [st.heap.length]).Nodup := by
      rw [List.nodup_append]
      refine ⟨hnds, List.nodup_singleton _, ?_⟩
      intro a ha ha2
      rw [List.mem_singleton.mp ha2] at ha
      exact absurd (hsv _ ha) (Nat.lt_irrefl _)
    exact ((List.perm_insertionSort _ _).symm).nodup hl0
  · intro j hj
    show j ∈ st.m_buffers ++ [st.heap.length]
    rcases hmemsl j hj with hj2 | hj2
    · exact List.mem_append_left _ (hsub j hj2)
    · rw [hj2]
      exact List.mem_append_right _ (List.mem_singleton_self _)
  · show st.m_buffers_in_use + 1 = ((List.countP
      (fun j => (getBuf (freshAlloc st N).1 j).m_in_use)
      (st.m_buffers ++ [st.heap.length]) : Nat) : Int)
    rw [List.countP_append]
    have h1 : List.countP (fun j => (getBuf (freshAlloc st N).1 j).m_in_use)
        st.m_buffers = List.countP (fun j => (getBuf st j).m_in_use) st.m_buffers := by
      apply List.countP_congr
      intro x hx
      show (getBuf (freshAlloc st N).1 x).m_in_use = true ↔ (getBuf st x).m_in_use = true
      rw [hgold x (hrv x hx)]
    have h2 : List.countP (fun j => (getBuf (freshAlloc st N).1 j).m_in_use)
        [st.heap.length] = 1 := by
      simp only [List.countP_cons, List.countP_nil]
      rw [if_pos]
      show (getBuf (freshAlloc st N).1 st.heap.length).m_in_use = true
      rw [hgnew]
    rw [h1, h2]
    simp only [inUseRecords] at hcnt
    rw [hcnt]
    rfl

theorem inv_garbage_collect (st : PoolState) (now : Int) (hinv : PoolInv st) :
    PoolInv (garbage_collect st now) ∧
    (garbage_collect st now).m_buffers_in_use = st.m_buffers_in_use := by
  obtain ⟨hs, hsv, hrv, hndb, hnds, hsub, hcnt⟩ := hinv
  have hfes := foldl_erase_eq_filter (st.m_buffers.filter (tooOld st now))
    st.m_size_list hnds
  have hfeb := foldl_erase_eq_filter (st.m_buffers.filter (tooOld st now))
    st.m_buffers hndb
  refine ⟨⟨?_, ?_, ?_, ?_, ?_, ?_, ?_⟩, rfl⟩
  · show ((st.m_buffers.filter (tooOld st now)).foldl
        (fun acc id => acc.erase id) st.m_size_list).Pairwise (allocLE st)
    rw [hfes]
    exact List.Pairwise.sublist (List.filter_sublist _) hs
  · intro j hj
    have hj2 := (mem_foldl_erase _ _ hnds j).mp hj
    exact hsv j hj2.1
  · intro j hj
    have hj2 := (mem_foldl_erase _ _ hndb j).mp hj
    exact hrv j hj2.1
  · show ((st.m_buffers.filter (tooOld st now)).foldl
        (fun acc id => acc.erase id) st.m_buffers).Nodup
    rw [hfeb]
    exact hndb.filter _
  · show ((st.m_buffers.filter (tooOld st now)).foldl
        (fun acc id => acc.erase id) st.m_size_list).Nodup
    rw [hfes]
    exact hnds.filter _
  · intro j hj
    have hj2 := (mem_foldl_erase _ _ hnds j).mp hj
    exact (mem_foldl_erase _ _ hndb j).mpr ⟨hsub j hj2.1, hj2.2⟩
  · show st.m_buffers_in_use = ((List.countP
      (fun j => (getBuf st j).m_in_use)
      ((st.m_buffers.filter (tooOld st now)).foldl
        (fun acc id => acc.erase id) st.m_buffers) : Nat) : Int)
    rw [hfeb, List.countP_filter]
    have hsame : List.countP (fun a => (getBuf st a).m_in_use &&
        !(st.m_buffers.filter (tooOld st now)).contains a) st.m_buffers =
        List.countP (fun j => (getBuf st j).m_in_use) st.m_buffers := by
      apply List.countP_congr
      intro x hx
      by_cases hdrop : x ∈ st.m_buffers.filter (tooOld st now)
      · have htoo := (List.mem_filter.mp hdrop).2
        rw [tooOld_iff] at htoo
        simp [htoo.1]
      · have hc : (st.m_buffers.filter (tooOld st now)).contains x = false := by
          simpa using hdrop
        rw [hc]
        simp
    rw [hsame]
    exact hcnt

theorem inv_gcGate (st : PoolState) (now : Int) (hinv : PoolInv st) :
    PoolInv (gcGate st now) ∧
    (gcGate st now).m_buffers_in_use = st.m_buffers_in_use := by
  unfold gcGate
  split
  · split
    · have h1 : PoolInv { st with m_last_cleanup_check := now } := hinv
      exact inv_garbage_collect _ now h1
    · exact ⟨hinv, rfl⟩
  · exact ⟨hinv, rfl⟩

theorem inv_release (st : PoolState) (id : Nat) (now : Int) (hinv : PoolInv st)
    (hmem : id ∈ st.m_buffers) (huse : (getBuf st id).m_in_use = true) :
    PoolInv (releaseFields st id now) ∧
    (releaseFields st id now).m_buffers_in_use = st.m_buffers_in_use - 1 := by
  obtain ⟨hs, hsv, hrv, hndb, hnds, hsub, hcnt⟩ := hinv
  have hlt : id < st.heap.length := hrv id hmem
  have hgid : getBuf (releaseFields st id now) id =
      { getBuf st id with
          m_in_use := false,
          m_last_used := now } :=
    getD_set_self_of_lt st.heap id _ {} hlt
  have hgne : ∀ j, j ≠ id → getBuf (releaseFields st id now) j = getBuf st j :=
    fun j hj => getD_set_ne_of_ne st.heap id j _ {} (Ne.symm hj)
  have halloc : ∀ j, (getBuf (releaseFields st id now) j).m_allocated =
      (getBuf st j).m_allocated := by
    intro j
    by_cases hj : j = id
    · subst hj
      rw [hgid]
    · rw [hgne j hj]
  have hlen : (releaseFields st id now).heap.length = st.heap.length :=
    List.length_set st.heap id _
  refine ⟨⟨?_, ?_, ?_, hndb, hnds, hsub, ?_⟩, rfl⟩
  · exact List.Pairwise.imp
      (fun {a b} hab => by
        unfold allocLE at *
        rw [halloc a, halloc b]
        exact hab) hs
  · intro j hj
    rw [hlen]
    exact hsv j hj
  · intro j hj
    rw [hlen]
    exact hrv j hj
  · show st.m_buffers_in_use - 1 = ((List.countP
      (fun j => (getBuf (releaseFields st id now) j).m_in_use) st.m_buffers : Nat) : Int)
    have hflip := countP_flip st.m_buffers hndb id hmem
      (fun j => (getBuf (releaseFields st id now) j).m_in_use)
      (fun j => (getBuf st j).m_in_use)
      (fun x _ hxa => by
        show (getBuf st x).m_in_use = (getBuf (releaseFields st id now) x).m_in_use
        rw [hgne x hxa])
      (by
        show (getBuf (releaseFields st id now) id).m_in_use = false
        rw [hgid])
      huse
    simp only [inUseRecords] at hcnt
    rw [hcnt, hflip]
    omega

theorem inv_applyOp (st : PoolState) (op : PoolOp) (hinv : PoolInv st)
    (hok : okOp st op) :
    PoolInv (applyOp st op) ∧
    buffers_in_use (applyOp st op) = buffers_in_use st +
      (match op with
       | .acquire _ _ => 1
       | .release _ _ => -1) := by
  cases op with
  | acquire n now =>
    show PoolInv (single_buffer st n now).1 ∧
      (single_buffer st n now).1.m_buffers_in_use = st.m_buffers_in_use + 1
    cases hscan : freeScan st n with
    | some id =>
      rw [single_buffer_reuse_eq st n now id hscan]
      exact inv_reuseAt st n id hscan hinv
    | none =>
      rw [single_buffer_fresh_eq st n now hscan]
      have h1 := inv_freshAlloc st n hinv
      have h2 := inv_gcGate (freshAlloc st n).1 now h1.1
      refine ⟨h2.1, ?_⟩
      show (gcGate (freshAlloc st n).1 now).m_buffers_in_use = st.m_buffers_in_use + 1
      rw [h2.2, h1.2]
  | release id now =>
    obtain ⟨hmem, huse⟩ := hok
    show PoolInv (releaseResult (release_buffer st (some id) now)) ∧
      (releaseResult (release_buffer st (some id) now)).m_buffers_in_use =
        st.m_buffers_in_use + -1
    rw [release_buffer_registered st id now hmem, releaseResult_some]
    have h := inv_release st id now hinv hmem huse
    refine ⟨h.1, ?_⟩
    rw [h.2]
    omega

/-- C5 amended: over any sequence of acquire and release calls in which
every release targets a registered record currently in use (no double,
foreign or null release), the incrementally maintained `m_buffers_in_use`
stays accurate: it equals the number of registered records marked in-use,
and it grows by one per acquisition and shrinks by one per release (so it
equals acquisitions minus releases plus the starting value).  The full
pool invariant is preserved along the way. -/
theorem C5_amended_counter_accuracy (st : PoolState) (ops : List PoolOp)
    (hinv : PoolInv st) (hwf : WFTrace st ops) :
    PoolInv (exec st ops) ∧
    buffers_in_use (exec st ops) = (inUseRecords (exec st ops) : Int) ∧
    buffers_in_use (exec st ops) = buffers_in_use st + acqCount ops - relCount ops := by
  revert hinv
  induction hwf with
  | nil st1 =>
    intro hinv
    refine ⟨hinv, hinv.2.2.2.2.2.2, ?_⟩
    show buffers_in_use st1 = buffers_in_use st1 + acqCount [] - relCount []
    simp [acqCount, relCount]
  | cons st1 op ops hok hwf ih =>
    intro hinv
    have hstep := inv_applyOp st1 op hinv hok
    have hrest := ih hstep.1
    refine ⟨hrest.1, hrest.2.1, ?_⟩
    show buffers_in_use (exec (applyOp st1 op) ops) =
      buffers_in_use st1 + acqCount (op :: ops) - relCount (op :: ops)
    rw [hrest.2.2, hstep.2]
    cases op <;> simp only [acqCount, relCount] <;> omega

/-- C5 counterexample: the call sequence acquire, acquire, release handle
0, release handle 0 again (a double release, which the plain revision's
`release_buffer` does not guard against) drives `m_buffers_in_use` to 0
while one registered record is still marked in use, so the counter does
not equal the number of records marked in-use after every acquire/release
sequence. -/
theorem C5_counterexample_double_release :
    buffers_in_use (exec initialState c5_ops) = 0 ∧
    inUseRecords (exec initialState c5_ops) = 1 := by
  decide

/-- Witness for the amended C5 on a concrete well-formed trace. -/
theorem C5_amended_counter_accuracy_witness :
    PoolInv (exec initialState c5w_ops) ∧
    buffers_in_use (exec initialState c5w_ops) = (inUseRecords (exec initialState c5w_ops) : Int) ∧
    buffers_in_use (exec initialState c5w_ops) =
      buffers_in_use initialState + acqCount c5w_ops - relCount c5w_ops :=
  C5_amended_counter_accuracy initialState c5w_ops (by decide)
    (.cons _ _ _ trivial
      (.cons _ _ _ ⟨by decide, by decide⟩
        (.cons _ _ _ trivial (.nil _))))
